import Mathlib

/-!
Shallow embedding of the investment-tracking repository's core logic:
the portfolio rebalancer (`src/portfolio.py`), the price-fetching fallback
chain (`src/prices.py`), the technical indicators (`src/analysis.py`) and
the news aggregation/deduplication pipeline (`src/news_sources.py`).

Python floats are modelled as `ℚ` (the arithmetic involved is exact field
arithmetic; NaN outcomes of pandas are modelled by `Option`), dicts as
association lists, DataFrames as lists of row structures, and network
fetch results as explicit inputs (`Option`/lists standing for the data a
source yielded, `none`/`[]` for a failure or an empty response).
-/

namespace InvestTrack

/-- A row of the holdings DataFrame: columns Ticker, Qty, AvgCost,
TargetWeight (the columns `calculate_portfolio_values` reads). -/
structure Holding where
  ticker : String
  qty : ℚ
  avgCost : ℚ
  targetWeight : ℚ
deriving DecidableEq, Repr

/-- `df["Ticker"].map(prices).fillna(0.0)`: look a ticker up in the price
dict, unknown tickers mapping to 0.0. -/
def priceOf (prices : List (String × ℚ)) (t : String) : ℚ :=
  match prices.lookup t with
  | some p => p
  | none => 0

/-- A row of the DataFrame returned by `calculate_portfolio_values`:
the holding's columns plus CurrentPrice, CurrentValue, CurrentWeight. -/
structure PortfolioRow where
  ticker : String
  qty : ℚ
  avgCost : ℚ
  targetWeight : ℚ
  currentPrice : ℚ
  currentValue : ℚ
  currentWeight : ℚ
deriving DecidableEq, Repr

/-- `calculate_portfolio_values` (src/portfolio.py lines 8-26):
CurrentPrice = price map lookup with fillna(0), CurrentValue = Qty ×
CurrentPrice, CurrentWeight = CurrentValue / total × 100 when the total
is positive, else 0.0. -/
def calculate_portfolio_values (holdings : List Holding)
    (prices : List (String × ℚ)) : List PortfolioRow :=
  let priced := holdings.map (fun h =>
    let cp := priceOf prices h.ticker
    (h, cp, h.qty * cp))
  let total := (priced.map (fun r => r.2.2)).sum
  priced.map (fun r =>
    { ticker := r.1.ticker, qty := r.1.qty, avgCost := r.1.avgCost,
      targetWeight := r.1.targetWeight, currentPrice := r.2.1,
      currentValue := r.2.2,
      currentWeight := if total > 0 then r.2.2 / total * 100 else 0 })

/-- `df["CurrentValue"].sum()`. -/
def totalCurrentValue (df : List PortfolioRow) : ℚ :=
  (df.map (fun r => r.currentValue)).sum

/-- An element of the action list built by `calculate_rebalancing_actions`.
The `reason` f-string's numeric interpolation (a presentation detail) is
elided; the word identifying the branch is kept.  `warning` is the key the
enrichment pass of `generate_rebalancing_recommendation` may add. -/
structure RebalanceAction where
  ticker : String
  action : String
  qty : ℚ
  value : ℚ
  currentWeight : ℚ
  targetWeight : ℚ
  deviation : ℚ
  reason : String
  warning : Option String
deriving DecidableEq, Repr

/-- The loop body of `calculate_rebalancing_actions` (src/portfolio.py
lines 54-106) for one row: skip rows with non-positive price, rows within
`max_deviation`, and trades below `min_trade_value`; otherwise emit a
COMPRAR action (value_diff > 0) or a VENDER action capped at the held
quantity. -/
def rebalanceRowAction (total mtv mdev : ℚ) (row : PortfolioRow) :
    Option RebalanceAction :=
  if row.currentPrice ≤ 0 then none
  else
    let deviation := row.currentWeight - row.targetWeight
    if |deviation| < mdev then none
    else
      let targetValue := row.targetWeight / 100 * total
      let valueDiff := targetValue - row.currentValue
      let qtyDiff := valueDiff / row.currentPrice
      if |valueDiff| < mtv then none
      else if valueDiff > 0 then
        some { ticker := row.ticker, action := "COMPRAR", qty := |qtyDiff|,
               value := |valueDiff|, currentWeight := row.currentWeight,
               targetWeight := row.targetWeight, deviation := deviation,
               reason := "Subponderado", warning := none }
      else
        some { ticker := row.ticker, action := "VENDER",
               qty := min |qtyDiff| row.qty, value := |valueDiff|,
               currentWeight := row.currentWeight,
               targetWeight := row.targetWeight, deviation := deviation,
               reason := "Sobreponderado", warning := none }

/-- One step of Python's stable `list.sort(key=lambda x: abs(x.deviation),
reverse=True)`: insert an element (originally before all of the sorted
suffix) before the first element whose key is not strictly greater. -/
def insertByAbsDev (a : RebalanceAction) :
    List RebalanceAction → List RebalanceAction
  | [] => [a]
  | b :: bs =>
      if |a.deviation| < |b.deviation| then b :: insertByAbsDev a bs
      else a :: b :: bs

/-- `actions.sort(key=lambda x: abs(x["deviation"]), reverse=True)`. -/
def sortByAbsDevDesc (l : List RebalanceAction) : List RebalanceAction :=
  l.foldr insertByAbsDev []

/-- `calculate_rebalancing_actions` (src/portfolio.py lines 28-111). -/
def calculate_rebalancing_actions (holdings : List Holding)
    (prices : List (String × ℚ)) (min_trade_value max_deviation : ℚ) :
    List RebalanceAction :=
  let df := calculate_portfolio_values holdings prices
  let total := totalCurrentValue df
  if total = 0 then []
  else
    sortByAbsDevDesc
      (df.filterMap (rebalanceRowAction total min_trade_value max_deviation))

/-- The per-ticker dict of `technical_data` as far as the enrichment pass
reads it (`tech.get("rsi")`). -/
structure TechInfo where
  rsi : Option ℚ
deriving DecidableEq, Repr

/-- The per-ticker dict of `fundamental_data` as far as the enrichment
pass reads it (`fund.get("recommendation")`). -/
structure FundInfo where
  recommendation : Option String
deriving DecidableEq, Repr

/-- The technical block of the enrichment loop (src/portfolio.py lines
215-222).  `if rsi:` is Python truthiness: a missing or zero RSI is
skipped. -/
def applyTechWarning (techData : Option (List (String × TechInfo)))
    (a : RebalanceAction) : RebalanceAction :=
  match techData with
  | none => a
  | some m =>
    match m.lookup a.ticker with
    | none => a
    | some ti =>
      match ti.rsi with
      | none => a
      | some r =>
        if r = 0 then a
        else if a.action = "COMPRAR" ∧ r > 70 then
          { a with warning := some "RSI sobrecompra - considerar esperar" }
        else if a.action = "VENDER" ∧ r < 30 then
          { a with warning := some "RSI sobreventa - podría rebotar" }
        else a

/-- The fundamental block of the enrichment loop (src/portfolio.py lines
225-232).  `if recommendation:` is Python truthiness: a missing or empty
recommendation is skipped. -/
def applyFundWarning (fundData : Option (List (String × FundInfo)))
    (a : RebalanceAction) : RebalanceAction :=
  match fundData with
  | none => a
  | some m =>
    match m.lookup a.ticker with
    | none => a
    | some fi =>
      match fi.recommendation with
      | none => a
      | some s =>
        if s = "" then a
        else if a.action = "COMPRAR" ∧ s = "sell" then
          { a with warning := some "Analistas recomiendan venta" }
        else if a.action = "VENDER" ∧ s = "buy" then
          { a with warning := some "Analistas recomiendan compra" }
        else a

/-- `generate_rebalancing_recommendation` (src/portfolio.py lines
191-250): compute the actions with the default thresholds (100, 5), and
when non-empty return them enriched with advisory warnings plus a textual
summary (whose numeric interpolation is elided). -/
def generate_rebalancing_recommendation (holdings : List Holding)
    (prices : List (String × ℚ))
    (techData : Option (List (String × TechInfo)))
    (fundData : Option (List (String × FundInfo))) :
    List RebalanceAction × String :=
  let actions := calculate_rebalancing_actions holdings prices 100 5
  if actions.isEmpty then
    ([], "Portfolio balanceado. No se requieren acciones de rebalanceo.")
  else
    let enhanced :=
      actions.map (fun a => applyFundWarning fundData (applyTechWarning techData a))
    let parts :=
      (if (actions.filter (fun a => a.action == "COMPRAR")).length > 0 then
        ["Comprar posiciones"] else []) ++
      (if (actions.filter (fun a => a.action == "VENDER")).length > 0 then
        ["Vender posiciones"] else [])
    (enhanced, "Rebalanceo recomendado: " ++ String.intercalate ", " parts)

/-! ### Price fetching (src/prices.py)

Each data source of `fetch_price`'s five-tier fallback chain is modelled
by the value it yielded for the run: `none` for an exception, a missing
field or an empty history, `some v` for a delivered number `v` (which may
be 0). -/

/-- The outcomes of the data sources `fetch_price` consults, in program
order: the two fast_info keys, the two info keys, the last close of the
5-day daily history, the last close of the 1-day intraday history, and
the price field of the direct HTTP quote. -/
structure PriceSources where
  fastLastPrice : Option ℚ
  fastLastPriceRaw : Option ℚ
  infoCurrentPrice : Option ℚ
  infoRegularMarketPrice : Option ℚ
  hist5dClose : Option ℚ
  hist1dClose : Option ℚ
  httpQuotePrice : Option ℚ
deriving DecidableEq, Repr

/-- Python truthiness of an optional float: `None`, and 0.0, are falsy. -/
def pyTruthy (x : Option ℚ) : Bool :=
  match x with
  | none => false
  | some v => v ≠ 0

/-- Python `a or b` on optional floats: `b` whenever `a` is falsy. -/
def pyOr (a b : Option ℚ) : Option ℚ :=
  if pyTruthy a then a else b

/-- `fetch_price_yahoo_http` (src/prices.py lines 37-40): the HTTP
quote's price if present (`is not None`), else 0.0. -/
def fetch_price_yahoo_http (s : PriceSources) : ℚ :=
  match s.httpQuotePrice with
  | some p => p
  | none => 0

/-- `fetch_price` (src/prices.py lines 43-101).  Each `if not price:`
guard re-tests Python truthiness of the accumulator; a history step
overwrites it only when the history is non-empty; step 5 always
overwrites; the final `return float(price) if price else 0.0` maps a
falsy accumulator to the 0.0 sentinel. -/
def fetch_price (s : PriceSources) : ℚ :=
  let p1 := pyOr s.fastLastPrice s.fastLastPriceRaw
  let p2 := if pyTruthy p1 then p1
            else pyOr s.infoCurrentPrice s.infoRegularMarketPrice
  let p3 := if pyTruthy p2 then p2
            else match s.hist5dClose with
                 | some c => some c
                 | none => p2
  let p4 := if pyTruthy p3 then p3
            else match s.hist1dClose with
                 | some c => some c
                 | none => p3
  let p5 := if pyTruthy p4 then p4 else some (fetch_price_yahoo_http s)
  if pyTruthy p5 then p5.getD 0 else 0

/-- The candidate prices of the five tiers flattened in the order the
code consults them (the two keys of a dict lookup chain in their `or`
order). -/
def priceSourceList (s : PriceSources) : List (Option ℚ) :=
  [s.fastLastPrice, s.fastLastPriceRaw, s.infoCurrentPrice,
   s.infoRegularMarketPrice, s.hist5dClose, s.hist1dClose,
   s.httpQuotePrice]

/-- The first delivered, non-zero price among the candidates, if any:
the reference formulation of "first non-empty, non-zero result wins". -/
def firstNonzeroPrice (l : List (Option ℚ)) : Option ℚ :=
  (l.filterMap id).find? (fun v => v ≠ 0)

/-- The data `fetch_prev_close` consults: the Close column of the 10-day
daily history (`[]` for an empty history or an exception) and the
previous-close field of the direct HTTP quote. -/
structure PrevCloseSources where
  histCloses : List ℚ
  httpPrevClose : Option ℚ
deriving DecidableEq, Repr

/-- `fetch_prev_close` (src/prices.py lines 104-126): a non-empty history
answers directly — the second-to-last close when there are at least two,
else the only close; only an empty history falls through to the HTTP
quote's previous-close field, and failing that to the 0.0 sentinel. -/
def fetch_prev_close (s : PrevCloseSources) : ℚ :=
  match s.histCloses with
  | [] =>
    match s.httpPrevClose with
    | some p => p
    | none => 0
  | c :: cs =>
    if 2 ≤ (c :: cs).length then (c :: cs).reverse.getD 1 0
    else (c :: cs).reverse.getD 0 0

/-! ### Technical indicators (src/analysis.py)

Price series are `List ℚ` in chronological order.  pandas NaN results
(e.g. the 0/0 case of the RSI ratio) are modelled by `none`, matching the
`pd.isna` guards of the source. -/

/-- `prices.diff()` without its leading NaN: consecutive differences. -/
def listDiffs : List ℚ → List ℚ
  | [] => []
  | [_] => []
  | a :: b :: rest => (b - a) :: listDiffs (b :: rest)

/-- `calculate_rsi` (src/analysis.py lines 10-21).  With at least
period+1 prices, the last rolling window of `delta.diff()` holds the last
`period` deltas; gain/loss are the window means of the positive/negative
parts.  pandas evaluates `gain/loss` at loss = 0 as +inf (gain > 0,
giving RSI 100) or NaN (0/0, caught by the `pd.isna` guard → None). -/
def calculate_rsi (l : List ℚ) (period : ℕ) : Option ℚ :=
  if l.length < period + 1 then none
  else
    let deltas := listDiffs l
    let window := deltas.drop (deltas.length - period)
    let gain := (window.map (fun d => if d > 0 then d else 0)).sum / (period : ℚ)
    let loss := (window.map (fun d => if d < 0 then -d else 0)).sum / (period : ℚ)
    if loss = 0 then (if gain = 0 then none else some 100)
    else some (100 - 100 / (1 + gain / loss))

/-- `ewm(span, adjust=False).mean()` recursion: y₀ = x₀,
yₜ = (1 − α)·yₜ₋₁ + α·xₜ, emitting every yₜ. -/
def emaFrom (a y : ℚ) : List ℚ → List ℚ
  | [] => [y]
  | x :: xs => y :: emaFrom a ((1 - a) * y + a * x) xs

/-- The full `ewm(span, adjust=False).mean()` series, `a = 2/(span+1)`. -/
def emaSeries (a : ℚ) : List ℚ → List ℚ
  | [] => []
  | x :: xs => emaFrom a x xs

/-- The dict returned by `calculate_macd`. -/
structure MacdResult where
  macd : Option ℚ
  signal : Option ℚ
  histogram : Option ℚ
deriving DecidableEq, Repr

/-- `series.iloc[-1]` of a non-empty series (0 for the empty one, a case
the guards rule out). -/
def lastD (l : List ℚ) : ℚ := l.reverse.headD 0

/-- `calculate_macd` (src/analysis.py lines 23-38): spans 12/26 for the
two EMAs (α = 2/13, 2/27) and 9 for the signal (α = 2/10); with 26 or
more samples none of the last values is NaN over ℚ. -/
def calculate_macd (l : List ℚ) : MacdResult :=
  if l.length < 26 then ⟨none, none, none⟩
  else
    let exp1 := emaSeries (2 / 13) l
    let exp2 := emaSeries (2 / 27) l
    let macdS := List.zipWith (fun a b => a - b) exp1 exp2
    let signalS := emaSeries (2 / 10) macdS
    let histS := List.zipWith (fun a b => a - b) macdS signalS
    ⟨some (lastD macdS), some (lastD signalS), some (lastD histS)⟩

/-- One simple moving average: `rolling(window=period).mean().iloc[-1]`
when the series has at least `period` samples (the mean of the last
`period` values, never NaN over ℚ), else None. -/
def smaLast (p : ℕ) (l : List ℚ) : Option ℚ :=
  if p ≤ l.length then some ((l.drop (l.length - p)).sum / (p : ℚ)) else none

/-- The dict returned by `calculate_moving_averages`. -/
structure MovingAverages where
  sma20 : Option ℚ
  sma50 : Option ℚ
  sma200 : Option ℚ
deriving DecidableEq, Repr

/-- `calculate_moving_averages` (src/analysis.py lines 40-49). -/
def calculate_moving_averages (l : List ℚ) : MovingAverages :=
  ⟨smaLast 20 l, smaLast 50 l, smaLast 200 l⟩

/-! ### News aggregation (src/news_sources.py)

The per-source fetchers are network calls; `aggregate_news_from_all_sources`
is embedded as a function of the article lists those fetchers delivered
(the "feed state"). -/

/-- The article dicts every fetcher builds. -/
structure Article where
  title : String
  link : String
  source : String
  summary : String
  published : String
  feed : String
deriving DecidableEq, Repr

/-- Python `str.lower()` (ASCII case folding suffices for the tokens the
filter uses). -/
def strLower (s : String) : String := String.mk (s.data.map Char.toLower)

/-- Whether `needle` is a leading segment of `hay`. -/
def charsLead : List Char → List Char → Bool
  | [], _ => true
  | _ :: _, [] => false
  | a :: as, b :: bs => a == b && charsLead as bs

/-- Whether `needle` occurs contiguously in `hay` (Python `needle in hay`;
the empty needle always matches). -/
def charsContain (needle : List Char) : List Char → Bool
  | [] => charsLead needle []
  | b :: bs => charsLead needle (b :: bs) || charsContain needle bs

/-- Python `needle in hay` on strings. -/
def pyIn (needle hay : String) : Bool := charsContain needle.data hay.data

/-- `BAD_TOKENS` of `filter_relevant_articles`. -/
def BAD_TOKENS : List String :=
  ["patrocinado", "sponsored", "opinión", "opinion", "op-ed", "advertorial"]

/-- `NOISE_TOKENS` of `filter_relevant_articles`. -/
def NOISE_TOKENS : List String :=
  ["SoFi Stadium", "estadio SoFi", "fútbol", "partido político", "celebridad"]

/-- `FINANCE_HINTS` of `filter_relevant_articles`. -/
def FINANCE_HINTS : List String :=
  ["earnings", "resultados", "guidance", "ingresos", "revenue", "EPS",
   "dividend", "dividendo", "rating", "NASDAQ", "NYSE", "SEC", "acciones",
   "stock", "shares", "quarter", "Q1", "Q2", "Q3", "Q4"]

/-- `filter_relevant_articles` (src/news_sources.py lines 200-266): drop
sponsored/opinion titles and known noise phrases, keep articles whose
title or summary mentions the ticker, the company, or a finance hint. -/
def filter_relevant_articles (articles : List Article) (ticker company : String) :
    List Article :=
  let tLow := strLower ticker
  let cLow := strLower company
  articles.filter (fun a =>
    let lt := strLower a.title
    let ls := strLower a.summary
    if BAD_TOKENS.any (fun tok => pyIn tok lt) then false
    else if NOISE_TOKENS.any (fun tok => pyIn (strLower tok) lt) then false
    else
      (pyIn tLow lt || pyIn cLow lt || pyIn tLow ls || pyIn cLow ls) ||
        FINANCE_HINTS.any (fun h => pyIn (strLower h) lt || pyIn (strLower h) ls))

/-- Python `str.strip()` on a character list: drop whitespace from both
ends. -/
def stripChars (l : List Char) : List Char :=
  ((l.dropWhile Char.isWhitespace).reverse.dropWhile Char.isWhitespace).reverse

/-- `article.get("title", "").lower().strip()[:50]`: the normalized title
key used for deduplication. -/
def normTitle (t : String) : String :=
  String.mk ((stripChars (strLower t).data).take 50)

/-- The deduplication loop of `aggregate_news_from_all_sources`
(src/news_sources.py lines 297-305): keep an article only when its
normalized title is non-empty and unseen. -/
def dedupAux (seen : List String) : List Article → List Article
  | [] => []
  | a :: rest =>
    let tn := normTitle a.title
    if tn ≠ "" ∧ tn ∉ seen then a :: dedupAux (tn :: seen) rest
    else dedupAux seen rest

/-- One step of Python's stable
`sort(key=lambda x: x.get("published", ""), reverse=True)`. -/
def insertByPublished (a : Article) : List Article → List Article
  | [] => [a]
  | b :: bs =>
      if a.published < b.published then b :: insertByPublished a bs
      else a :: b :: bs

/-- `unique_articles.sort(key=..., reverse=True)` — stable descending by
the raw published string. -/
def sortByPublishedDesc (l : List Article) : List Article :=
  l.foldr insertByPublished []

/-- `aggregate_news_from_all_sources` (src/news_sources.py lines
271-312) as a function of the fetched feeds: concatenate Google News
with MarketAux (the latter only when an API key is configured; the Yahoo
source is commented out in the code), filter, deduplicate, sort by
published descending, and cap at `max_per_source * 2`. -/
def aggregate_news_from_all_sources (ticker company : String)
    (max_per_source : ℕ) (googleFeed marketauxFeed : List Article)
    (hasApiKey : Bool) : List Article :=
  let allArticles := googleFeed ++ (if hasApiKey then marketauxFeed else [])
  let filtered := filter_relevant_articles allArticles ticker company
  let uniqueArticles := dedupAux [] filtered
  (sortByPublishedDesc uniqueArticles).take (max_per_source * 2)

/-! ### Helper lemmas -/

lemma lookup_mem {l : List (String × ℚ)} {t : String} {p : ℚ}
    (h : l.lookup t = some p) : (t, p) ∈ l := by
  induction l with
  | nil => simp [List.lookup] at h
  | cons a as ih =>
    rw [List.lookup_cons] at h
    split at h
    · next heq =>
      have ht : t = a.1 := by simpa using heq
      have hp : a.2 = p := by simpa using h
      rw [ht, ← hp]
      exact List.mem_cons_self _ _
    · exact List.mem_cons_of_mem _ (ih h)

lemma priceOf_nonneg {prices : List (String × ℚ)}
    (hp : ∀ pr ∈ prices, 0 ≤ pr.2) (t : String) : 0 ≤ priceOf prices t := by
  unfold priceOf
  split
  · next p hl => exact hp _ (lookup_mem hl)
  · exact le_rfl

lemma totalCurrentValue_calc (holdings : List Holding)
    (prices : List (String × ℚ)) :
    totalCurrentValue (calculate_portfolio_values holdings prices) =
      (holdings.map (fun h => h.qty * priceOf prices h.ticker)).sum := by
  unfold totalCurrentValue calculate_portfolio_values
  simp [List.map_map, Function.comp_def]

lemma calc_values_eq (holdings : List Holding) (prices : List (String × ℚ)) :
    calculate_portfolio_values holdings prices =
      holdings.map (fun h =>
        { ticker := h.ticker, qty := h.qty, avgCost := h.avgCost,
          targetWeight := h.targetWeight,
          currentPrice := priceOf prices h.ticker,
          currentValue := h.qty * priceOf prices h.ticker,
          currentWeight :=
            if (holdings.map (fun h2 => h2.qty * priceOf prices h2.ticker)).sum > 0 then
              h.qty * priceOf prices h.ticker /
                (holdings.map (fun h2 => h2.qty * priceOf prices h2.ticker)).sum * 100
            else 0 }) := by
  unfold calculate_portfolio_values
  simp [List.map_map, Function.comp_def]

lemma mem_calc_values {holdings : List Holding} {prices : List (String × ℚ)}
    {row : PortfolioRow}
    (h : row ∈ calculate_portfolio_values holdings prices) :
    ∃ hd ∈ holdings,
      row.ticker = hd.ticker ∧ row.qty = hd.qty ∧
      row.targetWeight = hd.targetWeight ∧
      row.currentPrice = priceOf prices hd.ticker ∧
      row.currentValue = hd.qty * priceOf prices hd.ticker := by
  rw [calc_values_eq] at h
  obtain ⟨hd, hmem, rfl⟩ := List.mem_map.mp h
  exact ⟨hd, hmem, rfl, rfl, rfl, rfl, rfl⟩

lemma perm_insertByAbsDev (a : RebalanceAction) (l : List RebalanceAction) :
    (insertByAbsDev a l).Perm (a :: l) := by
  induction l with
  | nil => exact List.Perm.refl _
  | cons b bs ih =>
    simp only [insertByAbsDev]
    split
    · exact ((ih).cons b).trans (List.Perm.swap a b bs)
    · exact List.Perm.refl _

lemma perm_sortByAbsDevDesc (l : List RebalanceAction) :
    (sortByAbsDevDesc l).Perm l := by
  induction l with
  | nil => exact List.Perm.refl _
  | cons a t ih =>
    have he : sortByAbsDevDesc (a :: t) = insertByAbsDev a (sortByAbsDevDesc t) := rfl
    rw [he]
    exact (perm_insertByAbsDev _ _).trans (ih.cons a)

lemma mem_rebalancing_actions {holdings : List Holding}
    {prices : List (String × ℚ)} {mtv mdev : ℚ} {a : RebalanceAction}
    (h : a ∈ calculate_rebalancing_actions holdings prices mtv mdev) :
    totalCurrentValue (calculate_portfolio_values holdings prices) ≠ 0 ∧
    ∃ row ∈ calculate_portfolio_values holdings prices,
      rebalanceRowAction
        (totalCurrentValue (calculate_portfolio_values holdings prices))
        mtv mdev row = some a := by
  simp only [calculate_rebalancing_actions] at h
  split at h
  · simp at h
  · next hne =>
    refine ⟨hne, ?_⟩
    have hm := (perm_sortByAbsDevDesc _).mem_iff.mp h
    exact List.mem_filterMap.mp hm

lemma rebalanceRowAction_spec {total mtv mdev : ℚ} {row : PortfolioRow}
    {a : RebalanceAction}
    (h : rebalanceRowAction total mtv mdev row = some a) :
    0 < row.currentPrice ∧
    mdev ≤ |row.currentWeight - row.targetWeight| ∧
    a.ticker = row.ticker ∧
    a.value = |row.targetWeight / 100 * total - row.currentValue| ∧
    mtv ≤ a.value ∧
    ((0 < row.targetWeight / 100 * total - row.currentValue ∧
        a.action = "COMPRAR" ∧
        a.qty = |(row.targetWeight / 100 * total - row.currentValue) /
                  row.currentPrice|) ∨
     (row.targetWeight / 100 * total - row.currentValue ≤ 0 ∧
        a.action = "VENDER" ∧
        a.qty = min |(row.targetWeight / 100 * total - row.currentValue) /
                      row.currentPrice| row.qty)) := by
  simp only [rebalanceRowAction] at h
  split_ifs at h with h1 h2 h3 h4
  · have := Option.some.inj h
    subst this
    exact ⟨not_le.mp h1, not_lt.mp h2, rfl, rfl, not_lt.mp h3,
      Or.inl ⟨h4, rfl, rfl⟩⟩
  · have := Option.some.inj h
    subst this
    exact ⟨not_le.mp h1, not_lt.mp h2, rfl, rfl, not_lt.mp h3,
      Or.inr ⟨not_lt.mp h4, rfl, rfl⟩⟩

/-! ### Sample inputs used by the witnesses -/

/-- A two-position portfolio: both hold one share, both target 50%. -/
def sampleHoldings : List Holding :=
  [⟨"A", 1, 0, 50⟩, ⟨"B", 1, 0, 50⟩]

/-- Prices making the portfolio drift to 75% / 25%. -/
def samplePrices : List (String × ℚ) := [("A", 750), ("B", 250)]

/-- The SELL action `calculate_rebalancing_actions` emits for "A" on the
sample portfolio with the default thresholds (100, 5). -/
def sampleSellAction : RebalanceAction :=
  ⟨"A", "VENDER", 1/3, 250, 75, 50, 25, "Sobreponderado", none⟩

/-- The BUY action emitted for "B" on the sample portfolio. -/
def sampleBuyAction : RebalanceAction :=
  ⟨"B", "COMPRAR", 1, 250, 25, 50, -25, "Subponderado", none⟩

lemma sample_values_eval :
    calculate_portfolio_values sampleHoldings samplePrices =
      [⟨"A", 1, 0, 50, 750, 750, 75⟩, ⟨"B", 1, 0, 50, 250, 250, 25⟩] := by
  have pA : priceOf samplePrices "A" = 750 := rfl
  have pB : priceOf samplePrices "B" = 250 := rfl
  norm_num [calculate_portfolio_values, sampleHoldings, pA, pB]

lemma sample_total_eval :
    totalCurrentValue (calculate_portfolio_values sampleHoldings samplePrices) =
      1000 := by
  rw [sample_values_eval]
  norm_num [totalCurrentValue]

lemma sample_actions_eval :
    calculate_rebalancing_actions sampleHoldings samplePrices 100 5 =
      [sampleSellAction, sampleBuyAction] := by
  have pA : priceOf samplePrices "A" = 750 := rfl
  have pB : priceOf samplePrices "B" = 250 := rfl
  norm_num [calculate_rebalancing_actions, calculate_portfolio_values,
    totalCurrentValue, rebalanceRowAction, sortByAbsDevDesc, insertByAbsDev,
    sampleHoldings, sampleSellAction, sampleBuyAction, pA, pB,
    abs_of_nonneg, abs_of_nonpos, List.filterMap_cons, min_def]

/-! ### Claim theorems: rebalancer -/

/-- Claim C1: every SELL action returned by
`calculate_rebalancing_actions` sells at most the held quantity of the
holding with that ticker, the sell quantity being
min(|value_diff|/price, holding quantity). -/
theorem sell_quantity_at_most_held (holdings : List Holding)
    (prices : List (String × ℚ)) (mtv mdev : ℚ) (a : RebalanceAction)
    (hmem : a ∈ calculate_rebalancing_actions holdings prices mtv mdev)
    (hsell : a.action = "VENDER") :
    ∃ hd ∈ holdings, a.ticker = hd.ticker ∧
      a.qty = min (a.value / priceOf prices hd.ticker) hd.qty ∧
      a.qty ≤ hd.qty := by
  obtain ⟨-, row, hrow, hact⟩ := mem_rebalancing_actions hmem
  obtain ⟨hcp, -, hticker, hval, -, hbranch⟩ := rebalanceRowAction_spec hact
  obtain ⟨hd, hmemh, ht, hq, htw, hcpf, hcv⟩ := mem_calc_values hrow
  rcases hbranch with ⟨-, hbuy, -⟩ | ⟨-, -, hqty⟩
  · exact absurd (hbuy.symm.trans hsell) (by decide)
  · refine ⟨hd, hmemh, by rw [hticker, ht], ?_, ?_⟩
    · rw [hqty, hval, ← hcpf, ← hq]
      congr 1
      rw [abs_div, abs_of_pos hcp]
    · rw [hqty, ← hq]
      exact min_le_right _ _

/-- Witness for C1: the sample portfolio's SELL action for "A" (held
quantity 1, sell quantity 1/3) instantiates the theorem. -/
theorem sell_quantity_at_most_held_witness :
    ∃ hd ∈ sampleHoldings, sampleSellAction.ticker = hd.ticker ∧
      sampleSellAction.qty =
        min (sampleSellAction.value / priceOf samplePrices hd.ticker) hd.qty ∧
      sampleSellAction.qty ≤ hd.qty :=
  sell_quantity_at_most_held sampleHoldings samplePrices 100 5 sampleSellAction
    (by rw [sample_actions_eval]; exact List.mem_cons_self _ _) rfl

lemma weight_filter_sum (prices : List (String × ℚ))
    (hp : ∀ pr ∈ prices, 0 ≤ pr.2) (T : ℚ) (l : List Holding) :
    ((l.filter (fun h => 0 < priceOf prices h.ticker)).map
        (fun h => h.qty * priceOf prices h.ticker / T * 100)).sum =
      (l.map (fun h => h.qty * priceOf prices h.ticker)).sum / T * 100 := by
  induction l with
  | nil => simp
  | cons h t ih =>
    by_cases hc : 0 < priceOf prices h.ticker
    · rw [List.filter_cons_of_pos (by simpa using hc), List.map_cons,
        List.sum_cons, List.map_cons, List.sum_cons, ih, add_div, add_mul]
    · have h0 : priceOf prices h.ticker = 0 :=
        le_antisymm (not_lt.mp hc) (priceOf_nonneg hp _)
      rw [List.filter_cons_of_neg (by simpa using hc), ih, List.map_cons,
        List.sum_cons, h0, mul_zero, zero_add]

/-- Claim C2: when the total current value is strictly positive (and
prices are the nonnegative numbers the Quote contract delivers), the
CurrentWeight column summed over the holdings with positive price is
exactly 100; zero-price (unknown) holdings contribute nothing. -/
theorem current_weights_sum_to_100 (holdings : List Holding)
    (prices : List (String × ℚ))
    (hp : ∀ pr ∈ prices, 0 ≤ pr.2)
    (htot : 0 < totalCurrentValue (calculate_portfolio_values holdings prices)) :
    (((calculate_portfolio_values holdings prices).filter
        (fun r => 0 < r.currentPrice)).map (fun r => r.currentWeight)).sum = 100 := by
  rw [totalCurrentValue_calc] at htot
  rw [calc_values_eq]
  simp only [List.filter_map, List.map_map, Function.comp_def, if_pos htot]
  rw [weight_filter_sum prices hp _]
  rw [div_self (ne_of_gt htot), one_mul]

/-- Witness for C2: on the sample portfolio the two weights 75 and 25 sum
to 100. -/
theorem current_weights_sum_to_100_witness :
    (((calculate_portfolio_values sampleHoldings samplePrices).filter
        (fun r => 0 < r.currentPrice)).map (fun r => r.currentWeight)).sum = 100 :=
  current_weights_sum_to_100 sampleHoldings samplePrices (by decide)
    (by rw [sample_total_eval]; norm_num)

/-- Claim C4: the rebalancer returns the empty list both when the total
current value is 0 and when every positively-priced row is within
`max_deviation` of its target weight. -/
theorem rebalancing_empty_cases (holdings : List Holding)
    (prices : List (String × ℚ)) (mtv mdev : ℚ) :
    (totalCurrentValue (calculate_portfolio_values holdings prices) = 0 →
      calculate_rebalancing_actions holdings prices mtv mdev = []) ∧
    ((∀ row ∈ calculate_portfolio_values holdings prices,
        0 < row.currentPrice →
        |row.currentWeight - row.targetWeight| < mdev) →
      calculate_rebalancing_actions holdings prices mtv mdev = []) := by
  constructor
  · intro h0
    simp [calculate_rebalancing_actions, h0]
  · intro hall
    by_cases h0 : totalCurrentValue (calculate_portfolio_values holdings prices) = 0
    · simp [calculate_rebalancing_actions, h0]
    · simp only [calculate_rebalancing_actions, if_neg h0]
      have hnil : (calculate_portfolio_values holdings prices).filterMap
          (rebalanceRowAction
            (totalCurrentValue (calculate_portfolio_values holdings prices))
            mtv mdev) = [] := by
        rw [List.filterMap_eq_nil_iff]
        intro row hrow
        simp only [rebalanceRowAction]
        by_cases hcp : row.currentPrice ≤ 0
        · rw [if_pos hcp]
        · rw [if_neg hcp, if_pos (hall row hrow (not_le.mp hcp))]
      rw [hnil]
      rfl

/-- Witness for C4: an unpriced portfolio (total 0) and the sample
portfolio with a 60% tolerance both yield no actions. -/
theorem rebalancing_empty_cases_witness :
    calculate_rebalancing_actions [⟨"A", 1, 0, 50⟩] [] 100 5 = [] ∧
    calculate_rebalancing_actions sampleHoldings samplePrices 100 60 = [] :=
  ⟨(rebalancing_empty_cases [⟨"A", 1, 0, 50⟩] [] 100 5).1
      (by norm_num [totalCurrentValue, calculate_portfolio_values, priceOf]),
   (rebalancing_empty_cases sampleHoldings samplePrices 100 60).2 (by
      intro row hrow hcp
      rw [sample_values_eval] at hrow
      simp only [List.mem_cons, List.not_mem_nil, or_false] at hrow
      rcases hrow with rfl | rfl
      · norm_num [abs_of_nonneg]
      · norm_num [abs_of_nonpos])⟩

/-- Claim C5: under the data-model contract (positive minimum trade
value, nonnegative quantities, target weights and prices) every emitted
action is a COMPRAR or VENDER with strictly positive quantity and
value. -/
theorem actions_wellformed (holdings : List Holding)
    (prices : List (String × ℚ)) (mtv mdev : ℚ) (hmtv : 0 < mtv)
    (hq : ∀ hd ∈ holdings, 0 ≤ hd.qty)
    (htw : ∀ hd ∈ holdings, 0 ≤ hd.targetWeight)
    (hp : ∀ pr ∈ prices, 0 ≤ pr.2)
    (a : RebalanceAction)
    (hmem : a ∈ calculate_rebalancing_actions holdings prices mtv mdev) :
    (a.action = "COMPRAR" ∨ a.action = "VENDER") ∧ 0 < a.qty ∧ 0 < a.value := by
  obtain ⟨hne, row, hrow, hact⟩ := mem_rebalancing_actions hmem
  obtain ⟨hcp, -, -, hval, hmle, hbranch⟩ := rebalanceRowAction_spec hact
  obtain ⟨hd, hmemh, ht, hqe, htwe, hcpf, hcv⟩ := mem_calc_values hrow
  set TV := totalCurrentValue (calculate_portfolio_values holdings prices) with hTV
  have htot0 : 0 ≤ TV := by
    rw [hTV, totalCurrentValue_calc]
    apply List.sum_nonneg
    intro x hx
    obtain ⟨hd2, hmem2, rfl⟩ := List.mem_map.mp hx
    exact mul_nonneg (hq hd2 hmem2) (priceOf_nonneg hp _)
  have htot : 0 < TV := lt_of_le_of_ne htot0 (Ne.symm hne)
  have hvalpos : 0 < a.value := lt_of_lt_of_le hmtv hmle
  refine ⟨?_, ?_, hvalpos⟩
  · rcases hbranch with ⟨-, hb, -⟩ | ⟨-, hb, -⟩
    · exact Or.inl hb
    · exact Or.inr hb
  · have hvdne : row.targetWeight / 100 * TV - row.currentValue ≠ 0 := by
      intro heq
      rw [hval, heq, abs_zero] at hvalpos
      exact lt_irrefl 0 hvalpos
    rcases hbranch with ⟨-, -, hqty⟩ | ⟨hvd, -, hqty⟩
    · rw [hqty]
      exact abs_pos.mpr (div_ne_zero hvdne (ne_of_gt hcp))
    · have hvdlt : row.targetWeight / 100 * TV - row.currentValue < 0 :=
        lt_of_le_of_ne hvd hvdne
      have htv : 0 ≤ row.targetWeight / 100 * TV := by
        apply mul_nonneg
        · apply div_nonneg
          · rw [htwe]; exact htw hd hmemh
          · norm_num
        · exact le_of_lt htot
      have hcvpos : 0 < row.currentValue := by linarith
      have hqpos : 0 < row.qty := by
        rw [hcv, ← hcpf] at hcvpos
        rw [hqe]
        by_contra hle
        push_neg at hle
        nlinarith
      rw [hqty]
      exact lt_min (abs_pos.mpr (div_ne_zero hvdne (ne_of_gt hcp))) hqpos

/-- Witness for C5: the sample SELL action is a VENDER with positive
quantity and value. -/
theorem actions_wellformed_witness :
    (sampleSellAction.action = "COMPRAR" ∨ sampleSellAction.action = "VENDER") ∧
    0 < sampleSellAction.qty ∧ 0 < sampleSellAction.value :=
  actions_wellformed sampleHoldings samplePrices 100 5 (by decide) (by decide)
    (by decide) (by decide) sampleSellAction
    (by rw [sample_actions_eval]; exact List.mem_cons_self _ _)

lemma applyTechWarning_fields (td : Option (List (String × TechInfo)))
    (a : RebalanceAction) :
    (applyTechWarning td a).ticker = a.ticker ∧
    (applyTechWarning td a).action = a.action ∧
    (applyTechWarning td a).qty = a.qty ∧
    (applyTechWarning td a).value = a.value := by
  rcases td with - | m
  · exact ⟨rfl, rfl, rfl, rfl⟩
  · unfold applyTechWarning
    repeat' split
    all_goals exact ⟨rfl, rfl, rfl, rfl⟩

lemma applyFundWarning_fields (fd : Option (List (String × FundInfo)))
    (a : RebalanceAction) :
    (applyFundWarning fd a).ticker = a.ticker ∧
    (applyFundWarning fd a).action = a.action ∧
    (applyFundWarning fd a).qty = a.qty ∧
    (applyFundWarning fd a).value = a.value := by
  rcases fd with - | m
  · exact ⟨rfl, rfl, rfl, rfl⟩
  · unfold applyFundWarning
    repeat' split
    all_goals exact ⟨rfl, rfl, rfl, rfl⟩

lemma mem_zip_map {α β : Type} (f : α → β) (l : List α) (pr : β × α)
    (h : pr ∈ (l.map f).zip l) : ∃ x ∈ l, pr = (f x, x) := by
  induction l with
  | nil => simp at h
  | cons x t ih =>
    simp only [List.map_cons, List.zip_cons_cons] at h
    rcases List.mem_cons.mp h with h | h
    · exact ⟨x, List.mem_cons_self _ _, h⟩
    · obtain ⟨y, hy, he⟩ := ih h
      exact ⟨y, List.mem_cons_of_mem _ hy, he⟩

/-- Claim C9: the enrichment pass of
`generate_rebalancing_recommendation` only annotates — the returned list
zips with the computed action list (same length and order) and agrees
position-wise on ticker, action, qty and value. -/
theorem enrichment_preserves_actions (holdings : List Holding)
    (prices : List (String × ℚ))
    (techData : Option (List (String × TechInfo)))
    (fundData : Option (List (String × FundInfo))) :
    (generate_rebalancing_recommendation holdings prices techData fundData).1.length =
      (calculate_rebalancing_actions holdings prices 100 5).length ∧
    ∀ pr ∈ (generate_rebalancing_recommendation holdings prices techData fundData).1.zip
        (calculate_rebalancing_actions holdings prices 100 5),
      pr.1.ticker = pr.2.ticker ∧ pr.1.action = pr.2.action ∧
      pr.1.qty = pr.2.qty ∧ pr.1.value = pr.2.value := by
  unfold generate_rebalancing_recommendation
  by_cases hemp : (calculate_rebalancing_actions holdings prices 100 5).isEmpty
  · have hnil : calculate_rebalancing_actions holdings prices 100 5 = [] := by
      simpa using hemp
    rw [if_pos hemp]
    simp [hnil]
  · rw [if_neg hemp]
    constructor
    · simp
    · intro pr hpr
      obtain ⟨x, hx, rfl⟩ := mem_zip_map _ _ _ hpr
      obtain ⟨t1, t2, t3, t4⟩ := applyTechWarning_fields techData x
      obtain ⟨f1, f2, f3, f4⟩ :=
        applyFundWarning_fields fundData (applyTechWarning techData x)
      exact ⟨f1.trans t1, f2.trans t2, f3.trans t3, f4.trans t4⟩

/-- Witness for C9: on the sample portfolio with no technical or
fundamental data, the enriched first action agrees with the computed SELL
action. -/
theorem enrichment_preserves_actions_witness :
    sampleSellAction.ticker = sampleSellAction.ticker ∧
    sampleSellAction.action = sampleSellAction.action ∧
    sampleSellAction.qty = sampleSellAction.qty ∧
    sampleSellAction.value = sampleSellAction.value :=
  (enrichment_preserves_actions sampleHoldings samplePrices none none).2
    (sampleSellAction, sampleSellAction) (by
      have hgen : (generate_rebalancing_recommendation sampleHoldings samplePrices
          none none).1 = [sampleSellAction, sampleBuyAction] := by
        simp [generate_rebalancing_recommendation, sample_actions_eval,
          applyTechWarning, applyFundWarning]
      rw [hgen, sample_actions_eval]
      simp)

/-! ### Claim theorems: price fetching -/

lemma pyTruthy_iff {o : Option ℚ} : pyTruthy o = true ↔ ∃ v, o = some v ∧ v ≠ 0 := by
  cases o with
  | none => simp [pyTruthy]
  | some v => simp [pyTruthy]

lemma firstNonzero_cons_truthy {o : Option ℚ} (h : pyTruthy o = true)
    (rest : List (Option ℚ)) : firstNonzeroPrice (o :: rest) = o := by
  obtain ⟨v, rfl, hv⟩ := pyTruthy_iff.mp h
  simp [firstNonzeroPrice, List.filterMap_cons, hv]

lemma firstNonzero_cons_falsy {o : Option ℚ} (h : pyTruthy o = false)
    (rest : List (Option ℚ)) :
    firstNonzeroPrice (o :: rest) = firstNonzeroPrice rest := by
  cases o with
  | none => simp [firstNonzeroPrice, List.filterMap_cons]
  | some v =>
    have hv : v = 0 := by simpa [pyTruthy] using h
    subst hv
    simp [firstNonzeroPrice, List.filterMap_cons]

lemma pyOr_falsy {a b : Option ℚ} (h : pyTruthy (pyOr a b) = false) :
    pyTruthy a = false ∧ pyTruthy b = false := by
  unfold pyOr at h
  by_cases ha : pyTruthy a = true
  · rw [if_pos ha] at h
    exact absurd (ha.symm.trans h) (by decide)
  · exact ⟨by simpa using ha, by rwa [if_neg ha] at h⟩

lemma firstNonzero_pyOr {a b : Option ℚ} (h : pyTruthy (pyOr a b) = true)
    (rest : List (Option ℚ)) :
    firstNonzeroPrice (a :: b :: rest) = pyOr a b := by
  by_cases ha : pyTruthy a = true
  · rw [firstNonzero_cons_truthy ha]
    unfold pyOr
    rw [if_pos ha]
  · have ha2 : pyTruthy a = false := by simpa using ha
    unfold pyOr at h ⊢
    rw [if_neg ha] at h ⊢
    rw [firstNonzero_cons_falsy ha2, firstNonzero_cons_truthy h]

/-- Claim C3: `fetch_price` returns the first delivered non-zero price
in the fixed five-tier order (the 0.0 sentinel when all tiers fail), and
downstream the rebalancer only ever acts on tickers whose looked-up price
is strictly positive — the sentinel is never consumed as a valid
price. -/
theorem fetch_price_fallback_chain (s : PriceSources) :
    fetch_price s = (firstNonzeroPrice (priceSourceList s)).getD 0 ∧
    ∀ (holdings : List Holding) (prices : List (String × ℚ)) (mtv mdev : ℚ)
      (a : RebalanceAction),
      a ∈ calculate_rebalancing_actions holdings prices mtv mdev →
      0 < priceOf prices a.ticker := by
  constructor
  · obtain ⟨f1, f2, i1, i2, h5, h1, hq⟩ := s
    simp only [fetch_price, priceSourceList, fetch_price_yahoo_http]
    by_cases t1 : pyTruthy (pyOr f1 f2) = true
    · simp only [t1, if_true]
      rw [firstNonzero_pyOr t1]
    · have t1f : pyTruthy (pyOr f1 f2) = false := by simpa using t1
      obtain ⟨hf1, hf2⟩ := pyOr_falsy t1f
      rw [firstNonzero_cons_falsy hf1, firstNonzero_cons_falsy hf2]
      simp only [t1f, Bool.false_eq_true, if_false]
      by_cases t2 : pyTruthy (pyOr i1 i2) = true
      · simp only [t2, if_true]
        rw [firstNonzero_pyOr t2]
      · have t2f : pyTruthy (pyOr i1 i2) = false := by simpa using t2
        obtain ⟨hi1, hi2⟩ := pyOr_falsy t2f
        rw [firstNonzero_cons_falsy hi1, firstNonzero_cons_falsy hi2]
        simp only [t2f, Bool.false_eq_true, if_false]
        cases h5 with
        | some c =>
          by_cases c0 : pyTruthy (some c) = true
          · simp only [c0, if_true]
            rw [firstNonzero_cons_truthy c0]
          · have c0f : pyTruthy (some c) = false := by simpa using c0
            rw [firstNonzero_cons_falsy c0f]
            simp only [c0f, Bool.false_eq_true, if_false]
            cases h1 with
            | some d =>
              by_cases d0 : pyTruthy (some d) = true
              · simp only [d0, if_true]
                rw [firstNonzero_cons_truthy d0]
              · have d0f : pyTruthy (some d) = false := by simpa using d0
                rw [firstNonzero_cons_falsy d0f]
                simp only [d0f, Bool.false_eq_true, if_false]
                cases hq with
                | some q =>
                  by_cases q0 : pyTruthy (some q) = true
                  · rw [firstNonzero_cons_truthy q0]
                    simp [pyTruthy] at q0
                    simp [pyTruthy, q0]
                  · have q0f : pyTruthy (some q) = false := by simpa using q0
                    rw [firstNonzero_cons_falsy q0f]
                    have : q = 0 := by simpa [pyTruthy] using q0f
                    subst this
                    simp [pyTruthy, firstNonzeroPrice]
                | none =>
                  rw [firstNonzero_cons_falsy (by simp [pyTruthy])]
                  simp [pyTruthy, firstNonzeroPrice]
            | none =>
              rw [firstNonzero_cons_falsy (by simp [pyTruthy])]
              simp only [t2f, c0f, Bool.false_eq_true, if_false]
              cases hq with
              | some q =>
                by_cases q0 : pyTruthy (some q) = true
                · rw [firstNonzero_cons_truthy q0]
                  simp [pyTruthy] at q0
                  simp [pyTruthy, q0]
                · have q0f : pyTruthy (some q) = false := by simpa using q0
                  rw [firstNonzero_cons_falsy q0f]
                  have : q = 0 := by simpa [pyTruthy] using q0f
                  subst this
                  simp [pyTruthy, firstNonzeroPrice]
              | none =>
                rw [firstNonzero_cons_falsy (by simp [pyTruthy])]
                simp [pyTruthy, firstNonzeroPrice]
        | none =>
          rw [firstNonzero_cons_falsy (by simp [pyTruthy])]
          simp only [t2f, Bool.false_eq_true, if_false]
          cases h1 with
          | some d =>
            by_cases d0 : pyTruthy (some d) = true
            · simp only [d0, if_true]
              rw [firstNonzero_cons_truthy d0]
            · have d0f : pyTruthy (some d) = false := by simpa using d0
              rw [firstNonzero_cons_falsy d0f]
              simp only [d0f, Bool.false_eq_true, if_false]
              cases hq with
              | some q =>
                by_cases q0 : pyTruthy (some q) = true
                · rw [firstNonzero_cons_truthy q0]
                  simp [pyTruthy] at q0
                  simp [pyTruthy, q0]
                · have q0f : pyTruthy (some q) = false := by simpa using q0
                  rw [firstNonzero_cons_falsy q0f]
                  have : q = 0 := by simpa [pyTruthy] using q0f
                  subst this
                  simp [pyTruthy, firstNonzeroPrice]
              | none =>
                rw [firstNonzero_cons_falsy (by simp [pyTruthy])]
                simp [pyTruthy, firstNonzeroPrice]
          | none =>
            rw [firstNonzero_cons_falsy (by simp [pyTruthy])]
            simp only [t2f, Bool.false_eq_true, if_false]
            cases hq with
            | some q =>
              by_cases q0 : pyTruthy (some q) = true
              · rw [firstNonzero_cons_truthy q0]
                simp [pyTruthy] at q0
                simp [pyTruthy, q0]
              · have q0f : pyTruthy (some q) = false := by simpa using q0
                rw [firstNonzero_cons_falsy q0f]
                have : q = 0 := by simpa [pyTruthy] using q0f
                subst this
                simp [pyTruthy, firstNonzeroPrice]
            | none =>
              rw [firstNonzero_cons_falsy (by simp [pyTruthy])]
              simp [pyTruthy, firstNonzeroPrice]

  · intro holdings prices mtv mdev a hmem
    obtain ⟨-, row, hrow, hact⟩ := mem_rebalancing_actions hmem
    obtain ⟨hcp, -, hticker, -, -, -⟩ := rebalanceRowAction_spec hact
    obtain ⟨hd, -, ht, -, -, hcpf, -⟩ := mem_calc_values hrow
    rw [hticker, ht, ← hcpf]
    exact hcp

/-- Witness for C3: with the first four tiers empty and the HTTP quote
delivering 123.45, `fetch_price` returns 123.45; and the sample SELL
action's ticker has a positive looked-up price. -/
theorem fetch_price_fallback_chain_witness :
    fetch_price ⟨none, none, none, none, none, none, some (2469/20)⟩ = 2469/20 ∧
    0 < priceOf samplePrices sampleSellAction.ticker :=
  ⟨by
    rw [(fetch_price_fallback_chain _).1]
    norm_num [firstNonzeroPrice, priceSourceList, List.filterMap_cons,
      List.find?],
   (fetch_price_fallback_chain ⟨none, none, none, none, none, none, none⟩).2
     sampleHoldings samplePrices 100 5 sampleSellAction
     (by rw [sample_actions_eval]; exact List.mem_cons_self _ _)⟩

/-- Counterexample to C6: on a one-row history (single close 42) with an
HTTP previous close of 7, `fetch_prev_close` returns the single close 42,
not the HTTP fallback 7 the claim predicts. -/
theorem fetch_prev_close_single_history :
    fetch_prev_close ⟨[42], some 7⟩ = 42 ∧
    fetch_prev_close ⟨[42], some 7⟩ ≠ 7 := by
  refine ⟨rfl, ?_⟩
  rw [show fetch_prev_close ⟨[42], some 7⟩ = 42 from rfl]
  norm_num

/-- Claim C6 (amended): with at least two closes the second-to-last close
is returned; with exactly one close that close itself is returned (no
HTTP fallback); only an empty history falls back to the HTTP quote's
previous close, 0.0 standing for unknown when that too is missing. -/
theorem fetch_prev_close_spec (s : PrevCloseSources) :
    (∀ (l : List ℚ) (a b : ℚ), s.histCloses = l ++ [a, b] →
      fetch_prev_close s = a) ∧
    (∀ a : ℚ, s.histCloses = [a] → fetch_prev_close s = a) ∧
    (s.histCloses = [] → fetch_prev_close s = s.httpPrevClose.getD 0) := by
  obtain ⟨closes, http⟩ := s
  refine ⟨?_, ?_, ?_⟩
  · intro l a b h
    simp only at h
    subst h
    cases l with
    | nil => simp [fetch_prev_close]
    | cons c cs =>
      show fetch_prev_close ⟨c :: (cs ++ [a, b]), http⟩ = a
      simp only [fetch_prev_close]
      rw [if_pos (by simp)]
      rw [show (c :: (cs ++ [a, b])) = (c :: cs) ++ [a, b] from by simp]
      rw [List.reverse_append]
      simp
  · intro a h
    simp only at h
    subst h
    simp [fetch_prev_close]
  · intro h
    simp only at h
    subst h
    cases http <;> rfl

/-- Witness for C6: a three-close history answers with its second-to-last
close, a one-close history with its only close, an empty history with the
HTTP previous close. -/
theorem fetch_prev_close_spec_witness :
    fetch_prev_close ⟨[1, 2, 3], some 9⟩ = 2 ∧
    fetch_prev_close ⟨[5], none⟩ = 5 ∧
    fetch_prev_close ⟨[], some 7⟩ = 7 :=
  ⟨(fetch_prev_close_spec _).1 [1] 2 3 rfl,
   (fetch_prev_close_spec _).2.1 5 rfl,
   (fetch_prev_close_spec _).2.2 rfl⟩

/-! ### Claim theorems: technical indicators -/

/-- Counterexample to C8: on a series of exactly 20 samples (fewer than
period+1 = 21) the 20-day SMA is a number (here 1), not the unknown the
claim predicts. -/
theorem sma_defined_at_exact_period :
    (List.replicate 20 (1 : ℚ)).length < 20 + 1 ∧
    (calculate_moving_averages (List.replicate 20 (1 : ℚ))).sma20 = some 1 := by
  constructor
  · simp
  · norm_num [calculate_moving_averages, smaLast, List.sum_replicate,
      nsmul_eq_mul]

/-- Claim C8 (amended): each indicator returns unknown (None, never a
NaN) below its own minimum window — RSI(14) below 15 samples, MACD below
26, and each SMA below its period (at exactly `period` samples the SMA is
already defined). -/
theorem indicators_insufficient_history (l : List ℚ) :
    (l.length < 14 + 1 → calculate_rsi l 14 = none) ∧
    (l.length < 26 → calculate_macd l = ⟨none, none, none⟩) ∧
    (l.length < 20 → (calculate_moving_averages l).sma20 = none) ∧
    (l.length < 50 → (calculate_moving_averages l).sma50 = none) ∧
    (l.length < 200 → (calculate_moving_averages l).sma200 = none) := by
  refine ⟨fun h => ?_, fun h => ?_, fun h => ?_, fun h => ?_, fun h => ?_⟩
  · simp [calculate_rsi, h]
  · simp [calculate_macd, h]
  · simp [calculate_moving_averages, smaLast, show ¬(20 ≤ l.length) from by omega]
  · simp [calculate_moving_averages, smaLast, show ¬(50 ≤ l.length) from by omega]
  · simp [calculate_moving_averages, smaLast, show ¬(200 ≤ l.length) from by omega]

/-- Witness for C8: the empty series is below every window, and every
indicator reports unknown on it. -/
theorem indicators_insufficient_history_witness :
    calculate_rsi [] 14 = none ∧
    calculate_macd [] = ⟨none, none, none⟩ ∧
    (calculate_moving_averages []).sma20 = none ∧
    (calculate_moving_averages []).sma50 = none ∧
    (calculate_moving_averages []).sma200 = none :=
  ⟨(indicators_insufficient_history []).1 (by decide),
   (indicators_insufficient_history []).2.1 (by decide),
   (indicators_insufficient_history []).2.2.1 (by decide),
   (indicators_insufficient_history []).2.2.2.1 (by decide),
   (indicators_insufficient_history []).2.2.2.2 (by decide)⟩

/-! ### Claim theorems: news aggregation -/

lemma dedupAux_invariant (seen : List String) (l : List Article) (a : Article)
    (h : a ∈ dedupAux seen l) :
    normTitle a.title ≠ "" ∧ normTitle a.title ∉ seen ∧
    l.find? (fun b => normTitle b.title == normTitle a.title) = some a := by
  induction l generalizing seen with
  | nil => simp [dedupAux] at h
  | cons x rest ih =>
    simp only [dedupAux] at h
    by_cases hc : normTitle x.title ≠ "" ∧ normTitle x.title ∉ seen
    · rw [if_pos hc] at h
      rcases List.mem_cons.mp h with rfl | hmem
      · exact ⟨hc.1, hc.2, List.find?_cons_of_pos _ (by simp)⟩
      · obtain ⟨h1, h2, h3⟩ := ih _ hmem
        have hxa : normTitle x.title ≠ normTitle a.title := by
          intro he
          exact h2 (List.mem_cons.mpr (Or.inl he.symm))
        refine ⟨h1, fun hm => h2 (List.mem_cons_of_mem _ hm), ?_⟩
        rw [List.find?_cons_of_neg _ (by simpa using hxa), h3]
    · rw [if_neg hc] at h
      obtain ⟨h1, h2, h3⟩ := ih _ h
      push_neg at hc
      have hxa : normTitle x.title ≠ normTitle a.title := by
        intro he
        by_cases hx0 : normTitle x.title = ""
        · exact h1 (he ▸ hx0)
        · exact h2 (he ▸ hc hx0)
      refine ⟨h1, h2, ?_⟩
      rw [List.find?_cons_of_neg _ (by simpa using hxa), h3]

lemma dedupAux_pairwise (seen : List String) (l : List Article) :
    (dedupAux seen l).Pairwise (fun a b => normTitle a.title ≠ normTitle b.title) := by
  induction l generalizing seen with
  | nil => simp [dedupAux]
  | cons x rest ih =>
    simp only [dedupAux]
    by_cases hc : normTitle x.title ≠ "" ∧ normTitle x.title ∉ seen
    · rw [if_pos hc]
      refine List.Pairwise.cons ?_ (ih _)
      intro b hb he
      exact (dedupAux_invariant _ _ _ hb).2.1 (List.mem_cons.mpr (Or.inl he.symm))
    · rw [if_neg hc]
      exact ih _

lemma perm_insertByPublished (a : Article) (l : List Article) :
    (insertByPublished a l).Perm (a :: l) := by
  induction l with
  | nil => exact List.Perm.refl _
  | cons b bs ih =>
    simp only [insertByPublished]
    split
    · exact ((ih).cons b).trans (List.Perm.swap a b bs)
    · exact List.Perm.refl _

lemma perm_sortByPublishedDesc (l : List Article) :
    (sortByPublishedDesc l).Perm l := by
  induction l with
  | nil => exact List.Perm.refl _
  | cons a t ih =>
    have he : sortByPublishedDesc (a :: t) = insertByPublished a (sortByPublishedDesc t) := rfl
    rw [he]
    exact (perm_insertByPublished _ _).trans (ih.cons a)

/-- A relevant sample article (its title carries the finance hint
"eps"). -/
def sampleArticle : Article := ⟨"eps a", "", "", "", "2024", ""⟩

/-- An article whose title normalizes to the empty string but whose
summary carries a finance hint, so it passes the relevance filter. -/
def emptyTitleArticle : Article := ⟨"  ", "", "", "eps", "2025", ""⟩

/-- Claim C7: the aggregated article list never exceeds 2 × max_per_source,
no two of its articles share the 50-character normalized title key, and
each kept article is the first occurrence of its key in the filtered
feed. -/
theorem aggregate_caps_and_dedups (ticker company : String) (mps : ℕ)
    (googleFeed marketauxFeed : List Article) (hasApiKey : Bool) :
    (aggregate_news_from_all_sources ticker company mps googleFeed
        marketauxFeed hasApiKey).length ≤ 2 * mps ∧
    (aggregate_news_from_all_sources ticker company mps googleFeed
        marketauxFeed hasApiKey).Pairwise
      (fun a b => normTitle a.title ≠ normTitle b.title) ∧
    ∀ a ∈ aggregate_news_from_all_sources ticker company mps googleFeed
        marketauxFeed hasApiKey,
      (filter_relevant_articles
          (googleFeed ++ if hasApiKey then marketauxFeed else [])
          ticker company).find?
        (fun b => normTitle b.title == normTitle a.title) = some a := by
  refine ⟨?_, ?_, ?_⟩
  · simp only [aggregate_news_from_all_sources]
    exact le_trans (List.length_take_le _ _) (by omega)
  · simp only [aggregate_news_from_all_sources]
    apply List.Pairwise.sublist (List.take_sublist _ _)
    exact (List.Perm.pairwise_iff (fun h => h.symm)
      (perm_sortByPublishedDesc _)).mpr (dedupAux_pairwise _ _)
  · intro a ha
    simp only [aggregate_news_from_all_sources] at ha
    exact (dedupAux_invariant _ _ _
      ((perm_sortByPublishedDesc _).mem_iff.mp (List.mem_of_mem_take ha))).2.2

/-- Witness for C7: the sample article survives aggregation and is the
first occurrence of its title key in the filtered feed. -/
theorem aggregate_caps_and_dedups_witness :
    (filter_relevant_articles [emptyTitleArticle, sampleArticle] "a" "c").find?
      (fun b => normTitle b.title == normTitle sampleArticle.title) =
      some sampleArticle :=
  (aggregate_caps_and_dedups "a" "c" 1 [emptyTitleArticle, sampleArticle]
    [] false).2.2 sampleArticle (by decide)

/-- Claim C10: no article whose normalized title is empty ever appears in
the aggregated output, whatever the feed state. -/
theorem aggregate_drops_empty_titles (ticker company : String) (mps : ℕ)
    (googleFeed marketauxFeed : List Article) (hasApiKey : Bool)
    (a : Article)
    (ha : a ∈ aggregate_news_from_all_sources ticker company mps googleFeed
        marketauxFeed hasApiKey) :
    normTitle a.title ≠ "" := by
  simp only [aggregate_news_from_all_sources] at ha
  exact (dedupAux_invariant _ _ _
    ((perm_sortByPublishedDesc _).mem_iff.mp (List.mem_of_mem_take ha))).1

/-- Witness for C10: on a feed containing an empty-titled (but relevant)
article, the surviving article has a non-empty normalized title. -/
theorem aggregate_drops_empty_titles_witness :
    normTitle sampleArticle.title ≠ "" :=
  aggregate_drops_empty_titles "a" "c" 1 [emptyTitleArticle, sampleArticle]
    [] false sampleArticle (by decide)

end InvestTrack
